import Mathlib

/-!
Shallow embedding of the `link` crate (`src/lib.rs`): a generic
singly-linked list `Link<T>` built from nodes that each own their
successor.  `Link<T>` is `Option<Box<Node<T>>>` where a `Node` holds a
value and the next `Link`; we embed this as an inductive with `nil`
(empty link) and `cons value next` (a boxed node).  Mutating Rust
methods (`&mut self`) are embedded as state-passing functions returning
the result together with the updated list; a Rust panic is embedded as
`Except.error` carrying the panic message.
-/

universe u

/-- `Link<T> = Option<Box<Node<T>>>`; `nil` is `None`, `cons v n` is a
node holding `v` whose `next` field is `n`. -/
inductive Link (T : Type u) : Type u where
  | nil : Link T
  | cons (value : T) (next : Link T) : Link T
deriving DecidableEq, Repr

namespace Link

variable {T : Type u}

/-- The element sequence of the chain, head first (the order produced by
the crate's iterators and its `Debug` rendering). -/
def toList : Link T → List T
  | .nil => []
  | .cons a n => a :: n.toList

/-- Build a chain from a head-first element sequence; this is the
crate's `FromIterator` construction (append at the slot-to-fill cursor). -/
def ofList : List T → Link T
  | [] => .nil
  | a :: r => .cons a (ofList r)

/-- `Link::len`: count nodes by traversal. -/
def len : Link T → Nat
  | .nil => 0
  | .cons _ n => n.len + 1

/-- `Link::empty`: `self.0.is_none()`. -/
def empty : Link T → Bool
  | .nil => true
  | .cons _ _ => false

/-- `Link::get(i)`: walk `i` successor links from the head; `none` when
the chain runs out.  The Rust result, a reference to the node at index
`i`, is embedded as the pair of its `value` and its `next` link. -/
def get : Link T → Nat → Option (T × Link T)
  | .nil, _ => none
  | .cons a n, 0 => some (a, n)
  | .cons _ n, i + 1 => n.get i

/-- The panic message produced by `Link::out_of_range(index)`:
`panic!("index {} out of range for Link", index)`. -/
def out_of_range_msg (index : Nat) : String :=
  "index " ++ toString index ++ " out of range for Link"

/-- `ops::Index` for `Link`: `self.get(i)`, returning the value on
success and panicking via `out_of_range(i)` otherwise. -/
def index (l : Link T) (i : Nat) : Except String T :=
  match l.get i with
  | some p => .ok p.1
  | none => .error (out_of_range_msg i)

/-- The write path of `ops::IndexMut`: navigate like `get_mut(i)` and
overwrite the node's `value`; `none` when the index is out of range. -/
def setAt : Link T → Nat → T → Option (Link T)
  | .nil, _, _ => none
  | .cons _ n, 0, v => some (.cons v n)
  | .cons a n, i + 1, v => (n.setAt i v).map (fun m => Link.cons a m)

/-- `ops::IndexMut` for `Link`: `a[i] = v` writes through `get_mut(i)`
and panics via `out_of_range(i)` when the index is out of range. -/
def index_mut_set (l : Link T) (i : Nat) (v : T) : Except String (Link T) :=
  match l.setAt i v with
  | some l2 => .ok l2
  | none => .error (out_of_range_msg i)

/-- `Link::push`: new node becomes the head, owning the old chain. -/
def push (l : Link T) (v : T) : Link T :=
  .cons v l

/-- `Link::pop`: detach the head node, the list becomes its `next`;
`None` on the empty list. -/
def pop : Link T → Option T × Link T
  | .nil => (none, .nil)
  | .cons a n => (some a, n)

/-- `Link::front`: value of the head node, `None` when empty. -/
def front : Link T → Option T
  | .nil => none
  | .cons a _ => some a

/-- `Link::back`: walk to the last node and return its value. -/
def back : Link T → Option T
  | .nil => none
  | .cons a .nil => some a
  | .cons _ (.cons b m) => back (.cons b m)

/-- `Link::push_back`: traverse to `end_node` and attach a new node
(the empty list gets the node as its head). -/
def push_back : Link T → T → Link T
  | .nil, v => .cons v .nil
  | .cons a n, v => .cons a (n.push_back v)

/-- `Link::pop_back`: `None` on empty; a single node is taken whole;
otherwise walk to the second-to-last node and take its successor. -/
def pop_back : Link T → Option T × Link T
  | .nil => (none, .nil)
  | .cons a .nil => (some a, .nil)
  | .cons a (.cons b m) =>
    let p := pop_back (.cons b m)
    (p.1, .cons a p.2)

/-- `Link::concat`: an empty `self` is replaced by `other`; otherwise
`end_node(self).next = other`. -/
def concat : Link T → Link T → Link T
  | .nil, other => other
  | .cons a n, other => .cons a (n.concat other)

/-- `Link::split_off(at)`: `get_mut(at)` then `take` its `next`; when
the index is not found the list is unchanged and the result empty. -/
def split_off : Link T → Nat → Link T × Link T
  | .nil, _ => (.nil, .nil)
  | .cons a n, 0 => (n, .cons a .nil)
  | .cons a n, j + 1 =>
    let p := n.split_off j
    (p.1, .cons a p.2)

/-- The `i > 0` arm of `Link::insert`: `get_mut(i-1)`, splice a new
node holding `v` after it, and return the new node's value. -/
def insert_after : Link T → Nat → T → Option (T × Link T)
  | .nil, _, _ => none
  | .cons a n, 0, v => some (v, .cons a (.cons v n))
  | .cons a n, j + 1, v =>
    (insert_after n j v).map (fun p => (p.1, Link.cons a p.2))

/-- `Link::insert(i, v)`: `i == 0` is `push` then `front`; otherwise
splice after node `i-1`; `None` (list unchanged) when `get_mut(i-1)`
fails. -/
def insert (l : Link T) (i : Nat) (v : T) : Option T × Link T :=
  match i with
  | 0 => ((l.push v).front, l.push v)
  | j + 1 =>
    match l.insert_after j v with
    | some p => (some p.1, p.2)
    | none => (none, l)

/-- The `i > 0` arm of `Link::delete`: `get_mut(i-1)`, take its
successor node, reattach that node's own successor, return its value;
`none` when `get_mut(i-1)` fails or the node at `i-1` is last. -/
def delete_after : Link T → Nat → Option (T × Link T)
  | .nil, _ => none
  | .cons _ .nil, 0 => none
  | .cons a (.cons b m), 0 => some (b, .cons a m)
  | .cons a n, j + 1 =>
    (delete_after n j).map (fun p => (p.1, Link.cons a p.2))

/-- `Link::delete(i)`: `i == 0` is `pop`; otherwise remove the node
after node `i-1`; `None` leaves the list unchanged. -/
def delete (l : Link T) (i : Nat) : Option T × Link T :=
  match i with
  | 0 => l.pop
  | j + 1 =>
    match l.delete_after j with
    | some p => (some p.1, p.2)
    | none => (none, l)

/-- `PartialEq for Link`: zip both iterators and compare pairwise;
`true` as soon as either side is exhausted. -/
def eq [DecidableEq T] : Link T → Link T → Bool
  | .cons a x, .cons b y => if a = b then eq x y else false
  | _, _ => true

end Link

/-- The read-only iterator `Iter<'a, T>`: its `data` field is the chain
(possibly empty) starting at the node the next call will yield. -/
structure Iter (T : Type u) : Type u where
  data : Link T
deriving DecidableEq, Repr

/-- `Link::iter`: an `Iter` positioned at the head. -/
def Link.iter {T : Type u} (l : Link T) : Iter T := ⟨l⟩

/-- `Iter::next`: yield the current node's value and advance to its
successor; `None` when no node remains. -/
def Iter.next {T : Type u} : Iter T → Option T × Iter T
  | ⟨.nil⟩ => (none, ⟨.nil⟩)
  | ⟨.cons a n⟩ => (some a, ⟨n⟩)

/-- Run `Iter::next` `k` times, keeping only the final iterator state. -/
def Iter.steps {T : Type u} : Iter T → Nat → Iter T
  | it, 0 => it
  | it, k + 1 => Iter.steps it.next.2 k

/-- The mutable iterator `IterMut<'a, T>`: `data` is the chain starting
at the node the cursor currently addresses (the node the next call
will yield); `nil` when the cursor addresses no node. -/
structure IterMut (T : Type u) : Type u where
  data : Link T
deriving DecidableEq, Repr

/-- `Link::iter_mut`: an `IterMut` positioned at the head. -/
def Link.iter_mut {T : Type u} (l : Link T) : IterMut T := ⟨l⟩

/-- `IterMut::next`: take the current node, yield its value, advance. -/
def IterMut.next {T : Type u} : IterMut T → Option T × IterMut T
  | ⟨.nil⟩ => (none, ⟨.nil⟩)
  | ⟨.cons a n⟩ => (some a, ⟨n⟩)

/-- Run `IterMut::next` `k` times, keeping only the final state. -/
def IterMut.steps {T : Type u} : IterMut T → Nat → IterMut T
  | it, 0 => it
  | it, k + 1 => IterMut.steps it.next.2 k

/-- `IterMut::insert_next`: splice a node holding `value` between the
cursor's node and that node's successor; `Err` (state unchanged) when
the cursor addresses no node. -/
def IterMut.insert_next {T : Type u} : IterMut T → T → Except String Unit × IterMut T
  | ⟨.nil⟩, _ => (.error "The iterator is pointed at no data!", ⟨.nil⟩)
  | ⟨.cons a n⟩, v => (.ok (), ⟨.cons a (.cons v n)⟩)

/-- `IterMut::pop_next`: take the node after the cursor's node,
reattach its successor, and return its value; `None` when the cursor
addresses no node or that node has no successor. -/
def IterMut.pop_next {T : Type u} : IterMut T → Option T × IterMut T
  | ⟨.nil⟩ => (none, ⟨.nil⟩)
  | ⟨.cons a .nil⟩ => (none, ⟨.cons a .nil⟩)
  | ⟨.cons a (.cons b m)⟩ => (some b, ⟨.cons a m⟩)

/-- The consuming iterator `IntoIter<T>`: owns the remaining chain. -/
structure IntoIter (T : Type u) : Type u where
  data : Link T
deriving DecidableEq, Repr

/-- `IntoIterator for Link`: wrap the whole list. -/
def Link.into_iter {T : Type u} (l : Link T) : IntoIter T := ⟨l⟩

/-- `IntoIter::next`: take the head node, keep its successor chain,
return its value by move. -/
def IntoIter.next {T : Type u} : IntoIter T → Option T × IntoIter T
  | ⟨.nil⟩ => (none, ⟨.nil⟩)
  | ⟨.cons a n⟩ => (some a, ⟨n⟩)

/-- Run `IntoIter::next` `k` times, keeping only the final state. -/
def IntoIter.steps {T : Type u} : IntoIter T → Nat → IntoIter T
  | it, 0 => it
  | it, k + 1 => IntoIter.steps it.next.2 k

/-! ## Basic correspondence lemmas -/

namespace Link

variable {T : Type u}

theorem toList_ofList (xs : List T) : (ofList xs).toList = xs := by
  induction xs with
  | nil => rfl
  | cons a r ih => simp [ofList, toList, ih]

theorem ofList_toList (l : Link T) : ofList l.toList = l := by
  induction l with
  | nil => rfl
  | cons a n ih => simp [ofList, toList, ih]

theorem len_eq_length (l : Link T) : l.len = l.toList.length := by
  induction l with
  | nil => rfl
  | cons a n ih => simp [len, toList, ih]

theorem get_fst (l : Link T) : ∀ i, (l.get i).map Prod.fst = l.toList[i]? := by
  induction l with
  | nil => intro i; simp [get, toList]
  | cons a n ih =>
    intro i
    cases i with
    | zero => simp [get, toList]
    | succ j => simp [get, toList, ih]

theorem index_eq (l : Link T) (i : Nat) :
    l.index i = match l.toList[i]? with
      | some w => Except.ok w
      | none => Except.error (out_of_range_msg i) := by
  have h := l.get_fst i
  unfold index
  cases hg : l.get i with
  | none => rw [hg] at h; rw [← h]; rfl
  | some p => rw [hg] at h; rw [← h]; rfl

theorem toList_concat (a b : Link T) : (a.concat b).toList = a.toList ++ b.toList := by
  induction a with
  | nil => rfl
  | cons x n ih => simp [concat, toList, ih]

end Link

namespace Link

variable {T : Type u}

theorem setAt_eq (v : T) (l : Link T) : ∀ i,
    l.setAt i v = if i < l.len then some (ofList (l.toList.set i v)) else none := by
  induction l with
  | nil => intro i; simp [setAt, len]
  | cons a n ih =>
    intro i
    cases i with
    | zero => simp [setAt, len, toList, ofList, ofList_toList]
    | succ j =>
      simp only [setAt, len, toList, ih, List.set_cons_succ, ofList, Nat.add_lt_add_iff_right]
      by_cases hj : j < n.len
      · simp [hj]
      · simp [hj]

theorem insert_after_eq (v : T) (l : Link T) : ∀ j,
    l.insert_after j v =
      if j < l.len then some (v, ofList (l.toList.insertIdx (j + 1) v)) else none := by
  induction l with
  | nil => intro j; simp [insert_after, len]
  | cons a n ih =>
    intro j
    cases j with
    | zero =>
      simp [insert_after, len, toList, List.insertIdx_succ_cons, List.insertIdx_zero,
        ofList, ofList_toList]
    | succ k =>
      simp only [insert_after, len, toList, ih, List.insertIdx_succ_cons, ofList,
        Nat.add_lt_add_iff_right]
      by_cases hk : k < n.len
      · simp [hk, List.insertIdx]
      · simp [hk]

theorem delete_after_eq (l : Link T) : ∀ j,
    l.delete_after j =
      (l.toList[j + 1]?).map (fun w => (w, ofList (l.toList.eraseIdx (j + 1)))) := by
  induction l with
  | nil => intro j; simp [delete_after, toList]
  | cons a n ih =>
    intro j
    cases j with
    | zero =>
      cases n with
      | nil => simp [delete_after, toList]
      | cons b m => simp [delete_after, toList, List.eraseIdx, ofList, ofList_toList]
    | succ k =>
      cases n with
      | nil => simp [delete_after, toList, ih]
      | cons b m =>
        simp only [delete_after, toList, ih, Option.map_map, List.getElem?_cons_succ,
          List.eraseIdx_cons_succ, ofList]
        rfl

theorem split_off_eq (l : Link T) : ∀ i,
    l.split_off i =
      if i < l.len then (ofList (l.toList.drop (i + 1)), ofList (l.toList.take (i + 1)))
      else (Link.nil, l) := by
  induction l with
  | nil => intro i; simp [split_off, len]
  | cons a n ih =>
    intro i
    cases i with
    | zero => simp [split_off, len, toList, ofList, ofList_toList]
    | succ j =>
      simp only [split_off, len, toList, ih, List.drop_succ_cons, List.take_succ_cons,
        ofList, Nat.add_lt_add_iff_right]
      by_cases hj : j < n.len
      · simp [hj]
      · simp [hj]

theorem push_back_pop_back (v : T) (l : Link T) : (l.push_back v).pop_back = (some v, l) := by
  induction l with
  | nil => rfl
  | cons a n ih =>
    cases n with
    | nil => rfl
    | cons b m =>
      simp only [push_back] at ih ⊢
      simp only [pop_back, ih]

theorem pop_back_unchanged (l : Link T) : l.pop_back.1 = none → l.pop_back.2 = l := by
  induction l with
  | nil => intro _; rfl
  | cons a n ih =>
    cases n with
    | nil => intro h; simp [pop_back] at h
    | cons b m =>
      intro h
      simp only [pop_back] at h ⊢
      rw [ih h]

end Link

theorem iter_steps_exhausted {T : Type u} (k : Nat) :
    (Iter.mk (Link.nil : Link T)).steps k = Iter.mk Link.nil := by
  induction k with
  | zero => rfl
  | succ j ih => exact ih

theorem iter_mut_steps_exhausted {T : Type u} (k : Nat) :
    (IterMut.mk (Link.nil : Link T)).steps k = IterMut.mk Link.nil := by
  induction k with
  | zero => rfl
  | succ j ih => exact ih

theorem into_iter_steps_exhausted {T : Type u} (k : Nat) :
    (IntoIter.mk (Link.nil : Link T)).steps k = IntoIter.mk Link.nil := by
  induction k with
  | zero => rfl
  | succ j ih => exact ih

/-! ## Claim theorems -/

/-- C1: the claim asserts `[1,2,3] == [1,2]` is false because the two
lengths differ; the code's `PartialEq` zips the two iterators and never
compares lengths, so the prefix-equal pair of different lengths is
judged equal: `eq [1,2,3] [1,2] = true`, diverging from the claim (and
from the spec's stated intent, which flags this as a required fix). -/
theorem c1_eq_ignores_length :
    Link.eq (Link.ofList [1, 2, 3]) (Link.ofList [1, 2, 3]) = true ∧
    (Link.ofList [1, 2, 3] : Link Nat).len ≠ (Link.ofList [1, 2] : Link Nat).len ∧
    Link.eq (Link.ofList [1, 2, 3]) (Link.ofList [1, 2]) = true := by
  refine ⟨rfl, ?_, rfl⟩
  decide

/-- C7: `concat` appends `other`'s entire element sequence to `self`'s
(also when `self` is empty, where `other` becomes the whole list), and
concatenation is associative on content. -/
theorem c7_concat_append_assoc (T : Type u) (a b c : Link T) :
    ((a.concat b).toList = a.toList ++ b.toList) ∧
    (Link.nil.concat b = b) ∧
    ((a.concat b).concat c).toList = (a.concat (b.concat c)).toList := by
  refine ⟨Link.toList_concat a b, rfl, ?_⟩
  simp [Link.toList_concat, List.append_assoc]

/-- C8: `push` then `pop` returns the pushed value and restores the
list exactly; `push_back` then `pop_back` likewise. -/
theorem c8_push_pop_roundtrip (T : Type u) (l : Link T) (v : T) :
    ((l.push v).pop = (some v, l)) ∧ ((l.push_back v).pop_back = (some v, l)) :=
  ⟨rfl, Link.push_back_pop_back v l⟩

/-- C2 (amended): indexed read at `i < len` returns the element at
position `i`; indexed write then read at the same index returns the
written value; at `i ≥ len` both read and write are a panic whose
message contains the offending index — but not the list's length. -/
theorem c2_indexed_access (T : Type u) (l : Link T) (i : Nat) (v : T) :
    (∀ w, l.toList[i]? = some w → l.index i = Except.ok w) ∧
    (∀ l2, l.index_mut_set i v = Except.ok l2 → l2.index i = Except.ok v) ∧
    (l.len ≤ i →
      l.index i = Except.error (Link.out_of_range_msg i) ∧
      l.index_mut_set i v = Except.error (Link.out_of_range_msg i)) ∧
    ((∃ l2, l.index_mut_set i v = Except.ok l2) ↔ i < l.len) := by
  have hset := Link.setAt_eq v l i
  have hlen := l.len_eq_length
  refine ⟨?_, ?_, ?_, ?_⟩
  · intro w hw
    rw [Link.index_eq, hw]
  · intro l2 h2
    unfold Link.index_mut_set at h2
    rw [hset] at h2
    by_cases hi : i < l.len
    · rw [if_pos hi] at h2
      have hl2 : l2 = Link.ofList (l.toList.set i v) := by
        cases h2; rfl
      subst hl2
      rw [Link.index_eq, Link.toList_ofList,
        List.getElem?_set_eq_of_lt v (by rw [← hlen]; exact hi)]
    · rw [if_neg hi] at h2
      cases h2
  · intro hi
    constructor
    · rw [Link.index_eq, List.getElem?_eq_none (by rw [← hlen]; exact hi)]
    · unfold Link.index_mut_set
      rw [hset, if_neg (by omega)]
  · constructor
    · rintro ⟨l2, h2⟩
      unfold Link.index_mut_set at h2
      rw [hset] at h2
      by_cases hi : i < l.len
      · exact hi
      · rw [if_neg hi] at h2; cases h2
    · intro hi
      refine ⟨Link.ofList (l.toList.set i v), ?_⟩
      unfold Link.index_mut_set
      rw [hset, if_pos hi]

/-- C2 witness: on `[4,5,6]`, reading index 1 gives 5; writing 9 at
index 1 then reading index 1 gives 9; reading index 7 panics with the
out-of-range message. -/
theorem c2_indexed_access_witness :
    ((Link.ofList [4, 5, 6] : Link Nat).index 1 = Except.ok 5) ∧
    ((Link.ofList [4, 5, 6] : Link Nat).index_mut_set 1 9 =
      Except.ok (Link.ofList [4, 9, 6])) ∧
    ((Link.ofList [4, 9, 6] : Link Nat).index 1 = Except.ok 9) ∧
    ((Link.ofList [4, 5, 6] : Link Nat).index 7 =
      Except.error (Link.out_of_range_msg 7)) := by
  refine ⟨?_, rfl, ?_, ?_⟩
  · exact (c2_indexed_access Nat (Link.ofList [4, 5, 6]) 1 9).1 5 rfl
  · exact (c2_indexed_access Nat (Link.ofList [4, 5, 6]) 1 9).2.1
      (Link.ofList [4, 9, 6]) rfl
  · exact ((c2_indexed_access Nat (Link.ofList [4, 5, 6]) 7 9).2.2.1 (by decide)).1

/-- C2 counterexample: on the list `[1,2,3]` of length 3, the
out-of-range abort message for index 5 is exactly
`"index 5 out of range for Link"`; the digit `'3'` — the list's
length — does not occur in it, so the message does not include the
list's length, contrary to the claim. -/
theorem c2_message_lacks_length :
    (Link.ofList [1, 2, 3] : Link Nat).len = 3 ∧
    (Link.ofList [1, 2, 3] : Link Nat).index 5 =
      Except.error "index 5 out of range for Link" ∧
    ("index 5 out of range for Link".data.contains '3') = false := by
  refine ⟨rfl, ?_, by decide⟩
  rfl

/-- C3: `insert(i, v)` returns `None` exactly when `i > len` and then
leaves the list unchanged; for `i ≤ len` it returns the inserted value
`v`, the element afterwards at index `i` is `v`, the length grows by
exactly 1, and `i = 0` behaves as a push at the front. -/
theorem c3_insert_spec (T : Type u) (l : Link T) (i : Nat) (v : T) :
    ((l.insert i v).1 = if i ≤ l.len then some v else none) ∧
    ((l.insert i v).2 = if i ≤ l.len then Link.ofList (l.toList.insertIdx i v) else l) ∧
    ((l.insert i v).2.len = if i ≤ l.len then l.len + 1 else l.len) ∧
    ((l.insert i v).2.index i = if i ≤ l.len then Except.ok v else l.index i) ∧
    ((l.insert 0 v).2 = l.push v) := by
  have hlen := l.len_eq_length
  cases i with
  | zero =>
    refine ⟨?_, ?_, ?_, ?_, rfl⟩
    · rw [if_pos (Nat.zero_le _)]; rfl
    · rw [if_pos (Nat.zero_le _)]
      simp [Link.insert, Link.push, List.insertIdx_zero, Link.ofList, Link.ofList_toList]
    · rw [if_pos (Nat.zero_le _)]; rfl
    · rw [if_pos (Nat.zero_le _)]; rfl
  | succ j =>
    have hw := Link.insert_after_eq v l j
    by_cases hj : j < l.len
    · rw [if_pos hj] at hw
      have hle : j + 1 ≤ l.toList.length := by omega
      have hlen2 : (l.toList.insertIdx (j + 1) v).length = l.toList.length + 1 :=
        List.length_insertIdx (j + 1) l.toList hle
      have hj' : j + 1 ≤ l.len := hj
      refine ⟨?_, ?_, ?_, ?_, rfl⟩ <;>
        simp only [Link.insert, hw, if_pos hj']
      · rw [Link.len_eq_length, Link.toList_ofList, hlen2, hlen]
      · rw [Link.index_eq, Link.toList_ofList,
          List.getElem?_eq_getElem (by omega),
          List.getElem_insertIdx_self l.toList v (j + 1) hle]
    · rw [if_neg hj] at hw
      have hj' : ¬ (j + 1 ≤ l.len) := by omega
      exact ⟨by simp [Link.insert, hw, if_neg hj'],
        by simp [Link.insert, hw, if_neg hj'],
        by simp [Link.insert, hw, if_neg hj'],
        by simp [Link.insert, hw, if_neg hj'], rfl⟩

/-- C4: `delete(i)` returns exactly the element previously at index `i`
(`None` exactly when `i ≥ len`, the list then unchanged); on success
the remaining elements keep their relative order and the length drops
by exactly 1; `i = 0` behaves as a pop at the front. -/
theorem c4_delete_spec (T : Type u) (l : Link T) (i : Nat) :
    ((l.delete i).1 = l.toList[i]?) ∧
    ((l.delete i).2 = if i < l.len then Link.ofList (l.toList.eraseIdx i) else l) ∧
    ((l.delete i).2.len = if i < l.len then l.len - 1 else l.len) ∧
    (l.delete 0 = l.pop) := by
  have hlen := l.len_eq_length
  cases i with
  | zero =>
    cases l with
    | nil => exact ⟨rfl, rfl, rfl, rfl⟩
    | cons a n =>
      refine ⟨by simp [Link.delete, Link.pop, Link.toList], ?_, ?_, rfl⟩
      · simp [Link.delete, Link.pop, Link.len, Link.toList, List.eraseIdx,
          Link.ofList_toList]
      · simp [Link.delete, Link.pop, Link.len]
  | succ j =>
    have hw := Link.delete_after_eq l j
    cases hd : l.delete_after j with
    | none =>
      rw [hd] at hw
      have hg : l.toList[j + 1]? = none := by
        cases hg2 : l.toList[j + 1]? with
        | none => rfl
        | some w => rw [hg2] at hw; cases hw
      have hge : l.len ≤ j + 1 := by
        rw [hlen]
        by_contra hc
        rw [List.getElem?_eq_getElem (by omega)] at hg
        cases hg
      have hno : ¬ (j + 1 < l.len) := by omega
      refine ⟨?_, ?_, ?_, rfl⟩
      · simp [Link.delete, hd, hg]
      · simp [Link.delete, hd, if_neg hno]
      · simp [Link.delete, hd, if_neg hno]
    | some p =>
      rw [hd] at hw
      cases hg : l.toList[j + 1]? with
      | none => rw [hg] at hw; cases hw
      | some w =>
        rw [hg] at hw
        have hp : p = (w, Link.ofList (l.toList.eraseIdx (j + 1))) := by
          injection hw with hp2
        subst hp
        have hlt : j + 1 < l.len := by
          rw [hlen]
          rcases List.getElem?_eq_some_iff.mp hg with ⟨h, _⟩
          exact h
        have herase : (l.toList.eraseIdx (j + 1)).length = l.toList.length - 1 := by
          rw [List.length_eraseIdx, if_pos (by omega)]
        refine ⟨?_, ?_, ?_, rfl⟩
        · simp [Link.delete, hd, hg]
        · simp [Link.delete, hd, if_pos hlt]
        · simp only [Link.delete, hd, if_pos hlt]
          rw [Link.len_eq_length, Link.toList_ofList, herase, hlen]

/-- C5: `split_off(at)` with `at < len` returns the elements from
`at+1` onward and keeps `0..=at` in `self`; with `at ≥ len` it returns
an empty list and `self` is unchanged; on `[1,2,3]`, index 0 gives
self `[1]`, result `[2,3]`, and index 2 gives self `[1,2,3]`, result
`[]`. -/
theorem c5_split_off_spec (T : Type u) (l : Link T) (i : Nat) :
    ((l.split_off i).1 = if i < l.len then Link.ofList (l.toList.drop (i + 1)) else Link.nil) ∧
    ((l.split_off i).2 = if i < l.len then Link.ofList (l.toList.take (i + 1)) else l) ∧
    ((Link.ofList [1, 2, 3] : Link Nat).split_off 0 = (Link.ofList [2, 3], Link.ofList [1])) ∧
    ((Link.ofList [1, 2, 3] : Link Nat).split_off 2 = (Link.nil, Link.ofList [1, 2, 3])) := by
  have hw := Link.split_off_eq l i
  by_cases hi : i < l.len
  · rw [if_pos hi] at hw
    exact ⟨by rw [hw, if_pos hi], by rw [hw, if_pos hi], by decide, by decide⟩
  · rw [if_neg hi] at hw
    exact ⟨by rw [hw, if_neg hi], by rw [hw, if_neg hi], by decide, by decide⟩

/-- C6: on the mutable iterator, `insert_next(v)` splices a node
holding `v` immediately after the node the cursor currently addresses
and errors exactly when the cursor addresses no node (state unchanged);
`pop_next` removes and returns the node immediately after the cursor's
node and returns `None` when the cursor addresses no node; neither
aborts. -/
theorem c6_cursor_insert_pop (T : Type u) (it : IterMut T) (v : T) :
    (it.data = Link.nil →
      it.insert_next v = (Except.error "The iterator is pointed at no data!", it) ∧
      it.pop_next = (none, it)) ∧
    (∀ a n, it.data = Link.cons a n →
      it.insert_next v = (Except.ok (), IterMut.mk (Link.cons a (Link.cons v n)))) ∧
    (∀ a b m, it.data = Link.cons a (Link.cons b m) →
      it.pop_next = (some b, IterMut.mk (Link.cons a m))) ∧
    ((it.insert_next v).1 = Except.ok () ↔ it.data ≠ Link.nil) ∧
    (∀ e s, it.insert_next v = (Except.error e, s) → s = it) := by
  obtain ⟨d⟩ := it
  cases d with
  | nil =>
    refine ⟨?_, ?_, ?_, ?_, ?_⟩
    · intro _; exact ⟨rfl, rfl⟩
    · intro a n h; cases h
    · intro a b m h; cases h
    · simp [IterMut.insert_next]
    · intro e s h
      cases h
      rfl
  | cons a n =>
    refine ⟨?_, ?_, ?_, ?_, ?_⟩
    · intro h; cases h
    · intro a2 n2 h
      cases h
      rfl
    · intro a2 b2 m2 h
      cases h
      rfl
    · simp [IterMut.insert_next]
    · intro e s h
      cases h

/-- C6 witness: with the cursor on the first node of `[1,2]`,
`insert_next 7` succeeds and places 7 directly after that node, and
`pop_next` removes and returns the 2; with the cursor past the end,
`insert_next` errors and the state is unchanged. -/
theorem c6_cursor_insert_pop_witness :
    ((IterMut.mk (Link.nil : Link Nat)).insert_next 7 =
      (Except.error "The iterator is pointed at no data!", IterMut.mk Link.nil)) ∧
    ((IterMut.mk (Link.cons 1 (Link.cons 2 Link.nil)) : IterMut Nat).insert_next 7 =
      (Except.ok (), IterMut.mk (Link.cons 1 (Link.cons 7 (Link.cons 2 Link.nil))))) ∧
    ((IterMut.mk (Link.cons 1 (Link.cons 2 Link.nil)) : IterMut Nat).pop_next =
      (some 2, IterMut.mk (Link.cons 1 Link.nil))) := by
  refine ⟨((c6_cursor_insert_pop Nat (IterMut.mk Link.nil) 7).1 rfl).1, ?_, ?_⟩
  · exact (c6_cursor_insert_pop Nat (IterMut.mk (Link.cons 1 (Link.cons 2 Link.nil))) 7).2.1
      1 (Link.cons 2 Link.nil) rfl
  · exact (c6_cursor_insert_pop Nat (IterMut.mk (Link.cons 1 (Link.cons 2 Link.nil))) 7).2.2.1
      1 2 Link.nil rfl

/-- C9: every recoverably fallible structural operation leaves the
element sequence unchanged when it returns its empty-result or error
marker: `pop`, `pop_back`, `insert`, `delete`, `split_off`, and the
cursor's `insert_next` and `pop_next`. -/
theorem c9_failure_leaves_unchanged (T : Type u) (l : Link T) (i : Nat) (v : T)
    (it : IterMut T) :
    (l.pop.1 = none → l.pop.2 = l) ∧
    (l.pop_back.1 = none → l.pop_back.2 = l) ∧
    ((l.insert i v).1 = none → (l.insert i v).2 = l) ∧
    ((l.delete i).1 = none → (l.delete i).2 = l) ∧
    ((l.split_off i).1 = Link.nil → (l.split_off i).2 = l) ∧
    (∀ e s, it.insert_next v = (Except.error e, s) → s = it) ∧
    (it.pop_next.1 = none → it.pop_next.2 = it) := by
  refine ⟨?_, l.pop_back_unchanged, ?_, ?_, ?_, ?_, ?_⟩
  · cases l with
    | nil => intro _; rfl
    | cons a n => intro h; cases h
  · cases i with
    | zero => intro h; cases h
    | succ j =>
      cases hd : l.insert_after j v with
      | none => intro _; simp [Link.insert, hd]
      | some p => intro h; simp [Link.insert, hd] at h
  · cases i with
    | zero =>
      cases l with
      | nil => intro _; rfl
      | cons a n => intro h; cases h
    | succ j =>
      cases hd : l.delete_after j with
      | none => intro _; simp [Link.delete, hd]
      | some p => intro h; simp [Link.delete, hd] at h
  · clear it v
    induction l generalizing i with
    | nil => intro _; rfl
    | cons a n ih =>
      cases i with
      | zero =>
        intro h
        simp only [Link.split_off] at h ⊢
        rw [h]
      | succ j =>
        intro h
        simp only [Link.split_off] at h ⊢
        rw [ih j h]
  · obtain ⟨d⟩ := it
    cases d with
    | nil => intro e s h; cases h; rfl
    | cons a n => intro e s h; cases h
  · obtain ⟨d⟩ := it
    cases d with
    | nil => intro _; rfl
    | cons a n =>
      cases n with
      | nil => intro _; rfl
      | cons b m => intro h; cases h

/-- C9 witness: concrete failing calls leave the list as it was:
`pop` on `[]`, `insert` at 5 and `delete` at 7 on `[1,2]`,
`split_off` at 5 on `[1,2]`, and `pop_next` with an exhausted cursor. -/
theorem c9_failure_leaves_unchanged_witness :
    ((Link.nil : Link Nat).pop.2 = Link.nil) ∧
    (((Link.ofList [1, 2] : Link Nat).insert 5 9).2 = Link.ofList [1, 2]) ∧
    (((Link.ofList [1, 2] : Link Nat).delete 7).2 = Link.ofList [1, 2]) ∧
    (((Link.ofList [1, 2] : Link Nat).split_off 5).2 = Link.ofList [1, 2]) ∧
    ((IterMut.mk (Link.nil : Link Nat)).pop_next.2 = IterMut.mk Link.nil) := by
  refine ⟨?_, ?_, ?_, ?_, ?_⟩
  · exact (c9_failure_leaves_unchanged Nat Link.nil 0 0 (IterMut.mk Link.nil)).1 rfl
  · exact (c9_failure_leaves_unchanged Nat (Link.ofList [1, 2]) 5 9
      (IterMut.mk Link.nil)).2.2.1 (by decide)
  · exact (c9_failure_leaves_unchanged Nat (Link.ofList [1, 2]) 7 9
      (IterMut.mk Link.nil)).2.2.2.1 (by decide)
  · exact (c9_failure_leaves_unchanged Nat (Link.ofList [1, 2]) 5 9
      (IterMut.mk Link.nil)).2.2.2.2.1 (by decide)
  · exact (c9_failure_leaves_unchanged Nat Link.nil 0 0
      (IterMut.mk Link.nil)).2.2.2.2.2.2 rfl

/-- C10: all three iterators are fused: once a `next` call has
returned `None` (so the state reached is the exhausted one), every
later `next` call, after any number of further steps, returns `None`. -/
theorem c10_iterators_fused (T : Type u) (i1 : Iter T) (i2 : IterMut T) (i3 : IntoIter T)
    (k1 k2 k3 : Nat) (h1 : i1.next.1 = none) (h2 : i2.next.1 = none)
    (h3 : i3.next.1 = none) :
    ((i1.next.2.steps k1).next.1 = none) ∧
    ((i2.next.2.steps k2).next.1 = none) ∧
    ((i3.next.2.steps k3).next.1 = none) := by
  refine ⟨?_, ?_, ?_⟩
  · obtain ⟨d⟩ := i1
    cases d with
    | nil => rw [show (Iter.mk (Link.nil : Link T)).next.2 = Iter.mk Link.nil from rfl,
        iter_steps_exhausted]; rfl
    | cons a n => cases h1
  · obtain ⟨d⟩ := i2
    cases d with
    | nil => rw [show (IterMut.mk (Link.nil : Link T)).next.2 = IterMut.mk Link.nil from rfl,
        iter_mut_steps_exhausted]; rfl
    | cons a n => cases h2
  · obtain ⟨d⟩ := i3
    cases d with
    | nil => rw [show (IntoIter.mk (Link.nil : Link T)).next.2 = IntoIter.mk Link.nil from rfl,
        into_iter_steps_exhausted]; rfl
    | cons a n => cases h3

/-- C10 witness: exhausted iterators of each kind keep returning
`None` after 2, 3 and 4 further steps. -/
theorem c10_iterators_fused_witness :
    ((Iter.mk (Link.nil : Link Nat)).next.1 = none) ∧
    (((Iter.mk (Link.nil : Link Nat)).next.2.steps 2).next.1 = none) ∧
    (((IterMut.mk (Link.nil : Link Nat)).next.2.steps 3).next.1 = none) ∧
    (((IntoIter.mk (Link.nil : Link Nat)).next.2.steps 4).next.1 = none) := by
  have h := c10_iterators_fused Nat (Iter.mk Link.nil) (IterMut.mk Link.nil)
    (IntoIter.mk Link.nil) 2 3 4 rfl rfl rfl
  exact ⟨rfl, h.1, h.2.1, h.2.2⟩
